import Mathlib

/-!
Shallow embedding of the `solana-program` client library (TypeScript) and
proofs about its declarative field/schema system, Borsh serialization
round-trip, instruction/transaction builders, account queries and the
Action workflow base class.

JS numbers are modelled as `Int` (sizes, offsets) or `Nat` (byte values),
byte buffers as `List Nat` with entries `< 256`, JS objects used as
string-keyed maps as insertion-ordered association lists, and thrown
errors as `Except String` / an `Option String` error component.
-/

namespace SolanaProgram

/-- A JS string-keyed object lookup: first (and only) binding wins. -/
def lookupAssoc {α : Type} : List (String × α) → String → Option α
  | [], _ => none
  | (k, v) :: rest, key => if k = key then some v else lookupAssoc rest key

/-- JS object assignment `obj[k] = v`: overwrite in place if the key is
present (insertion order is preserved), otherwise append. -/
def setAssoc {α : Type} : List (String × α) → String → α → List (String × α)
  | [], key, v => [(key, v)]
  | (k, w) :: rest, key, v =>
    if k = key then (key, v) :: rest else (k, w) :: setAssoc rest key v

/-- A Borsh field type declaration: a plain Rust type name string, or a
`[typeName, count]` fixed-size array. -/
inductive FieldType where
  | prim (name : String)
  | arr (name : String) (count : Nat)
deriving DecidableEq, Repr

/-- ASCII lower-casing of one character (the fragment of JS
`toLocaleLowerCase` relevant to type-name strings). -/
def lowerChar (c : Char) : Char :=
  if 'A' ≤ c ∧ c ≤ 'Z' then Char.ofNat (c.toNat + 32) else c

/-- ASCII lower-casing of a string, modelling `toLocaleLowerCase`. -/
def lowerString (s : String) : String := String.mk (s.data.map lowerChar)

/-- Size table of `inferFieldSize`'s inner `getSizeOf` (src/core/util.ts):
fixed-width primitives, `null` (here `none`) otherwise. The source
lower-cases the name via `toLocaleLowerCase`. -/
def getSizeOf (typeName : String) : Option Int :=
  match lowerString typeName with
  | "u8" | "i8" | "bool" => some 1
  | "u16" | "i16" => some 2
  | "u32" | "i32" | "f32" => some 4
  | "u64" | "i64" | "f64" | "usize" => some 8
  | _ => none

/-- `inferFieldSize` (src/core/util.ts). For an array type the source
computes `getSizeOf(fieldDef[0])! * fieldDef[1]`; when `getSizeOf` is
`null` the JS multiplication coerces `null` to `0`. -/
def inferFieldSize : FieldType → Option Int
  | .prim name => getSizeOf name
  | .arr name count => some ((getSizeOf name).getD 0 * count)

/-- The per-class metadata mutated by the `field` decorator
(src/core/util.ts): the Borsh schema field list, the byte-offset and
byte-size maps, and the accumulated total space. -/
structure SchemaState where
  fields : List (String × FieldType)
  offsets : List (String × Int)
  sizes : List (String × Int)
  space : Int
deriving DecidableEq, Repr

/-- The metadata just after first initialization inside `field`. -/
def emptySchemaState : SchemaState :=
  { fields := [], offsets := [], sizes := [], space := 0 }

/-- The size computation of the `field` decorator: `options.space` when
truthy, otherwise the inferred size, with the string-placeholder guess
`8 + 4 * type.length` when inference fails on a plain string type, and
an error for a non-string type whose size cannot be inferred or for a
negative supplied size. -/
def fieldSpace (type : FieldType) (space? : Option Int) (name : String) :
    Except String Int := do
  let space ←
    if space?.getD 0 = 0 then
      match inferFieldSize type with
      | some s => pure s
      | none =>
        match type with
        | .prim t => pure (8 + 4 * (t.length : Int))
        | .arr _ _ => Except.error ("could not infer space of field: " ++ name)
    else
      pure (space?.getD 0)
  if space < 0 then
    Except.error ("field cannot have negative space: " ++ name)
  else
    pure space

/-- One application of the `field(type, options)` decorator
(src/core/util.ts) to property `name`, starting from metadata `st`.
Returns the mutated metadata together with the raised error, if any:
the schema field list is pushed before the size computation, so it is
mutated even when an error is thrown. The offset of a non-first field
is `Object.values(sizes).reduce((a, b) => a + b)`, whose JS `reduce`
throws on an empty sizes map. -/
def fieldDecl (type : FieldType) (space? : Option Int) (name : String)
    (st : SchemaState) : SchemaState × Option String :=
  let fields := st.fields ++ [(name, type)]
  let st1 := { st with fields := fields }
  match fieldSpace type space? name with
  | .error e => (st1, some e)
  | .ok space =>
    if fields.length = 1 then
      ({ fields := fields
         offsets := setAssoc st.offsets name 0
         sizes := setAssoc st.sizes name space
         space := st.space + space }, none)
    else if st.sizes = [] then
      (st1, some "Reduce of empty array with no initial value")
    else
      ({ fields := fields
         offsets := setAssoc st.offsets name ((st.sizes.map (·.2)).sum)
         sizes := setAssoc st.sizes name space
         space := st.space + space }, none)

/-- One field declaration as written on a class: property name, declared
type, optional explicit `space` option. -/
structure FieldDecl where
  name : String
  type : FieldType
  space? : Option Int
deriving DecidableEq, Repr

/-- Apply a sequence of `field` decorators in declaration order, stopping
at the first thrown error (a decorator throw aborts class definition). -/
def applyFields : List FieldDecl → SchemaState → SchemaState × Option String
  | [], st => (st, none)
  | d :: ds, st =>
    match fieldDecl d.type d.space? d.name st with
    | (st', some e) => (st', some e)
    | (st', none) => applyFields ds st'

/-! ### Borsh serialization (the `borsh` npm dependency, as used here)

The repository serializes structs whose fields use the fixed-width
unsigned integers `u8/u16/u32/u64`, variable-length strings
(little-endian `u32` byte length followed by the UTF-8 bytes), and
fixed-size `[elem, n]` byte arrays. borsh-js dispatches a plain-string
field type to its writer/reader methods through
`capitalizeFirstLetter`, so a type name's first letter is
case-insensitive while the rest must match exactly: `'u8'` and `'U8'`
both reach `writeU8`, and the repository's `'String'` spelling (as well
as `'string'`) reaches `writeString`. A string value is represented by
its UTF-8 byte sequence. -/

/-- A field value as passed to / returned by Borsh. -/
inductive BValue where
  | num (n : Nat)
  | str (bytes : List Nat)
  | bytes (bs : List Nat)
deriving DecidableEq, Repr

/-- ASCII upper-casing of one character (the fragment of JS
`toUpperCase` relevant to type-name strings). -/
def upperChar (c : Char) : Char :=
  if 'a' ≤ c ∧ c ≤ 'z' then Char.ofNat (c.toNat - 32) else c

/-- borsh-js's `capitalizeFirstLetter`:
`fieldType.charAt(0).toUpperCase() + fieldType.slice(1)`. -/
def capitalizeFirstLetter (s : String) : String :=
  match s.data with
  | [] => ""
  | c :: rest => String.mk (upperChar c :: rest)

/-- Byte width of the fixed-width unsigned integer writer/reader a type
name dispatches to (`write${capitalizeFirstLetter(fieldType)}` in
borsh-js), restricted to the widths the repository uses; `none` for
anything else. -/
def primWidth (name : String) : Option Nat :=
  match capitalizeFirstLetter name with
  | "U8" => some 1
  | "U16" => some 2
  | "U32" => some 4
  | "U64" => some 8
  | _ => none

/-- Little-endian byte encoding of `n` in exactly `w` bytes. -/
def natToLE : Nat → Nat → List Nat
  | 0, _ => []
  | w + 1, n => n % 256 :: natToLE w (n / 256)

/-- Little-endian byte decoding. -/
def fromLE : List Nat → Nat
  | [] => 0
  | b :: bs => b + 256 * fromLE bs

/-- Borsh-serialize one field value at the given declared type; `none`
models a serialization error (wrong value shape, out-of-range integer,
wrong fixed-array length). -/
def serializeField : FieldType → BValue → Option (List Nat)
  | .prim name, v =>
    match primWidth name with
    | some w =>
      match v with
      | .num n => if n < 256 ^ w then some (natToLE w n) else none
      | _ => none
    | none =>
      if capitalizeFirstLetter name = "String" then
        match v with
        | .str bs =>
          if bs.length < 256 ^ 4 ∧ bs.all (· < 256) then
            some (natToLE 4 bs.length ++ bs)
          else none
        | _ => none
      else none
  | .arr name k, v =>
    if primWidth name = some 1 then
      match v with
      | .bytes bs => if bs.length = k ∧ bs.all (· < 256) then some bs else none
      | _ => none
    else none

/-- Borsh-deserialize one field value at the given declared type from the
front of the byte stream, returning the value and the remaining bytes. -/
def deserializeField : FieldType → List Nat → Option (BValue × List Nat)
  | .prim name, input =>
    match primWidth name with
    | some w =>
      if w ≤ input.length then
        some (.num (fromLE (input.take w)), input.drop w)
      else none
    | none =>
      if capitalizeFirstLetter name = "String" then
        if 4 ≤ input.length then
          if fromLE (input.take 4) ≤ (input.drop 4).length then
            some (.str ((input.drop 4).take (fromLE (input.take 4))),
                  (input.drop 4).drop (fromLE (input.take 4)))
          else none
        else none
      else none
  | .arr name k, input =>
    if primWidth name = some 1 then
      if k ≤ input.length then some (.bytes (input.take k), input.drop k)
      else none
    else none

/-- `borsh.serialize` of a struct: each field in schema order, concatenated. -/
def serializeStruct : List FieldType → List BValue → Option (List Nat)
  | [], [] => some []
  | t :: ts, v :: vs => do
    let b ← serializeField t v
    let r ← serializeStruct ts vs
    pure (b ++ r)
  | _, _ => none

/-- `borsh.deserializeUnchecked` of a struct: each field in schema order;
trailing bytes are ignored (returned as the remainder). -/
def deserializeStruct : List FieldType → List Nat →
    Option (List BValue × List Nat)
  | [], input => some ([], input)
  | t :: ts, input => do
    let (v, rest) ← deserializeField t input
    let (vs, rest') ← deserializeStruct ts rest
    pure (v :: vs, rest')

/-! ### ProgramObject and InstructionData (src/core/ProgramObject.ts,
src/core/InstructionData.ts)

An instance of a schema-bearing subclass is modelled by its schema field
list plus the list of its field values in schema order (all fields set,
no adaptors registered). -/

/-- `ProgramObject.toBuffer` (no-adaptor branch): Borsh-serialize the
instance against the class schema. -/
def programObjectToBuffer (fields : List (String × FieldType))
    (vals : List BValue) : Option (List Nat) :=
  serializeStruct (fields.map (·.2)) vals

/-- `ProgramObject.load`: Borsh-deserialize the buffer against the class
schema and assign every deserialized field onto the instance. -/
def programObjectLoad (fields : List (String × FieldType))
    (data : List Nat) : Option (List BValue) :=
  (deserializeStruct (fields.map (·.2)) data).map (·.1)

/-- `InstructionData.toBuffer` (src/core/InstructionData.ts): when the
class has no schema or its schema has no fields, exactly the single tag
byte; otherwise the tag byte followed by the Borsh-serialized struct.
`Uint8Array.of` reduces the tag modulo 256. -/
def instructionDataToBuffer (tag : Nat)
    (schema? : Option (List (String × FieldType))) (vals : List BValue) :
    Option (List Nat) :=
  match schema? with
  | none => some [tag % 256]
  | some fields =>
    if fields.length = 0 then some [tag % 256]
    else do
      let bytes ← serializeStruct (fields.map (·.2)) vals
      pure (tag % 256 :: bytes)

/-! ### Base58 (the `b58` npm dependency, Bitcoin alphabet) -/

/-- The Bitcoin base58 alphabet. -/
def b58Alphabet : String :=
  "123456789ABCDEFGHJKLMNPQRSTUVWXYZabcdefghijkmnopqrstuvwxyz"

/-- Digit `d` (0 ≤ d < 58) of the base58 alphabet. -/
def b58Char (d : Nat) : Char := b58Alphabet.toList.getD d '1'

/-- Base58 digits of `n`, most significant first; empty for 0. The fuel
argument bounds the recursion depth (the value strictly shrinks at each
division by 58, so fuel `n` always suffices). -/
def natToB58Aux : Nat → Nat → List Char
  | 0, _ => []
  | _ + 1, 0 => []
  | fuel + 1, n + 1 => natToB58Aux fuel ((n + 1) / 58) ++ [b58Char ((n + 1) % 58)]

/-- Base58 digits of `n`, most significant first; empty for 0. -/
def natToB58 (n : Nat) : List Char := natToB58Aux n n

/-- Bitcoin-style base58 of a byte sequence: one `'1'` per leading zero
byte, then the base58 digits of the remaining big-endian number. -/
def b58encode (bs : List Nat) : String :=
  let leading := (bs.takeWhile (· = 0)).map (fun _ => '1')
  let value := bs.foldl (fun acc b => acc * 256 + b % 256) 0
  String.mk (leading ++ natToB58 value)

/-! ### Query (account query builder) -/

/-- The `MemcmpTarget` sum type (src/core/types.ts): a raw buffer, a
single number, a byte array, a resolved public key (its 32 bytes), or
a text string. -/
inductive MemcmpTarget where
  | buffer (bs : List Nat)
  | number (n : Nat)
  | arr (bs : List Nat)
  | pubkey (bs : List Nat)
  | str (s : String)
deriving DecidableEq, Repr

/-- The comparison text computed inside `Query.memcmp`: base58 of the
bytes for a buffer; base58 of the one byte `Buffer.from([n])` for a
number; base58 of the bytes for an array; `toBase58()` for a public key
(the base58 of its bytes); `toString()` for anything else, which for a
string is the string itself. -/
def memcmpTargetText : MemcmpTarget → String
  | .buffer bs => b58encode bs
  | .number n => b58encode [n % 256]
  | .arr bs => b58encode bs
  | .pubkey bs => b58encode bs
  | .str s => s

/-- The staged state of a `Query` that the claims concern: its memcmp
filters (offset, comparison text) and its data-size filter. The offset
is `Option`-valued because `match` passes `offsets[name]`, which is JS
`undefined` for an unknown field name. -/
structure Query where
  memcmpFilters : List (Option Nat × String)
  dataSizeFilter : Option Int
deriving DecidableEq, Repr

/-- The `Query` constructor: no filters staged, then `size(space)` where
`space` is the target type's recorded total schema space metadata
(`none` when the type has no schema metadata). -/
def newQuery (space? : Option Int) : Query :=
  { memcmpFilters := [], dataSizeFilter := space? }

/-- `Query.memcmp`: push one filter with the normalized comparison text. -/
def Query.memcmp (q : Query) (offset : Option Nat) (bytes : MemcmpTarget) :
    Query :=
  { q with memcmpFilters := q.memcmpFilters ++ [(offset, memcmpTargetText bytes)] }

/-- `Query.size`: override (or clear) the data-size filter. -/
def Query.size (q : Query) (dataSize : Option Int) : Query :=
  { q with dataSizeFilter := dataSize }

/-- `Query.match`: for each named entry, look the field's recorded byte
offset up in the target type's `offsets` metadata and add one
equivalent memcmp filter. -/
def Query.matchFields (q : Query) (offsets : List (String × Int))
    (target : List (String × MemcmpTarget)) : Query :=
  target.foldl
    (fun q' nv => q'.memcmp ((lookupAssoc offsets nv.1).map Int.toNat) nv.2) q

/-! ### CustomInstructionBuilder (src/core/builders/InstructionBuilder.ts)

The data payload is represented by the byte buffer its `toBuffer()`
produces (the only use `build` makes of it). `opCode` is a JS number
field initialized to `0`; it is never `null`/`undefined`, so the
no-opcode branch of `build` is modelled by an exact `Option` check that
no reachable builder satisfies. -/

/-- The staged state of a `CustomInstructionBuilder` that the claims
concern. `opCode? = none` models the `null`/`undefined` case `build`
tests for; the constructor initializes the field to the number 0. -/
structure CustomInstructionBuilder where
  dataObject : Option (List Nat)
  opCode? : Option Int
deriving DecidableEq, Repr

/-- `new CustomInstructionBuilder(program)`: no payload, `opCode = 0`. -/
def newCustomBuilder : CustomInstructionBuilder :=
  { dataObject := none, opCode? := some 0 }

/-- `CustomInstructionBuilder.data(obj)`: bind the payload. -/
def CustomInstructionBuilder.data (b : CustomInstructionBuilder)
    (bytes : List Nat) : CustomInstructionBuilder :=
  { b with dataObject := some bytes }

/-- `CustomInstructionBuilder.opcode(n)`: reject values outside [0, 255],
otherwise store the opcode. -/
def CustomInstructionBuilder.opcode (b : CustomInstructionBuilder)
    (opCode : Int) : Except String CustomInstructionBuilder :=
  if opCode < 0 ∨ opCode > 255 then
    Except.error ("instruction opcode must be in range [0, 255]. got " ++
      toString opCode)
  else
    Except.ok { b with opCode? := some opCode }

/-- The instruction data bytes computed by `CustomInstructionBuilder.build`:
payload bytes alone (empty if no payload) when `opCode` is
`null`/`undefined`; otherwise the opcode byte (`Buffer.from` reduces it
modulo 256) followed by the payload bytes, or just the opcode byte when
no payload is bound. -/
def buildData (b : CustomInstructionBuilder) : List Nat :=
  match b.opCode? with
  | none => (b.dataObject.getD [])
  | some c =>
    match b.dataObject with
    | some payload => (c % 256).toNat :: payload
    | none => [(c % 256).toNat]

/-! ### TransactionBuilder (src/core/builders/TransactionBuilder.ts)

Keypairs are identified by `Nat` ids (JS `Set` membership is object
identity). An instruction builder is represented by its predetermined
`build()` outcome (the built instruction as a `Nat` id, or a thrown
error). Network submission (`sendAndConfirmTransaction`) is a
capability boundary, so its outcome is a parameter of `execute`. -/

/-- The `TransactionState` enum. -/
inductive TransactionState where
  | Created
  | Executed
  | Failed
deriving DecidableEq, Repr

/-- The `payer` field: initialized to JS `null`; `sign()` with an empty
argument list assigns `signers[0]`, which is JS `undefined`. -/
inductive PayerVal where
  | null
  | undef
  | key (k : Nat)
deriving DecidableEq, Repr

instance {ε α : Type} [DecidableEq ε] [DecidableEq α] :
    DecidableEq (Except ε α) := fun
  | .ok a, .ok b =>
    if h : a = b then isTrue (by rw [h])
    else isFalse (by intro hh; cases hh; exact h rfl)
  | .ok _, .error _ => isFalse (by intro h; cases h)
  | .error _, .ok _ => isFalse (by intro h; cases h)
  | .error e, .error f =>
    if h : e = f then isTrue (by rw [h])
    else isFalse (by intro hh; cases hh; exact h rfl)

/-- The staged state of a `TransactionBuilder`. -/
structure TransactionBuilder where
  state : TransactionState
  signers : List Nat
  instructionBuilders : List (Except String Nat)
  payer : PayerVal
deriving DecidableEq, Repr

/-- `Solana.begin()` / `new TransactionBuilder()`. -/
def newTransactionBuilder : TransactionBuilder :=
  { state := .Created, signers := [], instructionBuilders := [], payer := .null }

/-- `TransactionBuilder.add(...builders)` after flattening nested arrays:
append every builder in order. -/
def TransactionBuilder.add (tb : TransactionBuilder)
    (builders : List (Except String Nat)) : TransactionBuilder :=
  { tb with instructionBuilders := tb.instructionBuilders ++ builders }

/-- `TransactionBuilder.sign(...signers)`: add each keypair to the signer
set, then default the payer to `signers[0]` if no payer is set yet
(JS `undefined` when the argument list is empty). -/
def TransactionBuilder.sign (tb : TransactionBuilder) (ks : List Nat) :
    TransactionBuilder :=
  let signers := ks.foldl (fun s k => if k ∈ s then s else s ++ [k]) tb.signers
  let payer :=
    if tb.payer = .null then
      match ks with
      | [] => PayerVal.undef
      | k :: _ => PayerVal.key k
    else tb.payer
  { tb with signers := signers, payer := payer }

/-- `TransactionBuilder.validate`: first missing precondition in the
order payer, signers, instructions; `null` (`none`) when valid. -/
def TransactionBuilder.validate (tb : TransactionBuilder) : Option String :=
  if tb.payer = .null then
    some "a payer must be specified for transaction"
  else if tb.signers.length = 0 then
    some "transaction must be signed by at least one party"
  else if tb.instructionBuilders.length = 0 then
    some "cannot execute transaction with no instructions"
  else
    none

/-- Build every staged instruction builder in order, propagating the
first thrown build error. -/
def buildAll : List (Except String Nat) → Except String (List Nat)
  | [] => .ok []
  | b :: bs => do
    let i ← b
    let is ← buildAll bs
    pure (i :: is)

/-- `TransactionBuilder.execute(validate)`. `submit` is the outcome
`sendAndConfirmTransaction` would report for the assembled transaction
(a signature, or a thrown error). A validation failure throws before
any instruction is built or submitted, leaving the builder untouched;
a build error propagates outside the try block, leaving the state
unchanged; a submission success sets `Executed` and returns the
signature; a submission failure sets `Failed` and re-raises. -/
def TransactionBuilder.execute (tb : TransactionBuilder) (validate : Bool)
    (submit : Except String String) :
    Except String String × TransactionBuilder :=
  if validate ∧ (tb.validate).isSome then
    (.error ((tb.validate).getD ""), tb)
  else
    match buildAll tb.instructionBuilders with
    | .error e => (.error e, tb)
    | .ok _ =>
      match submit with
      | .ok sig => (.ok sig, { tb with state := .Executed })
      | .error e => (.error e, { tb with state := .Failed })

/-! ### Action (abstract workflow base class)

The subclass hooks `onInitialize` / `onPerform` are abstract, so a
method's behaviour is modelled by the sequence of hook invocations it
makes, alongside the state it leaves behind. `onPerform`'s returned
signature is a parameter. -/

/-- A hook invocation made by an `Action` method. -/
inductive ActionEvent where
  | onInitialize
  | onPerform
deriving DecidableEq, Repr

/-- The `Action` state the claims concern. -/
structure Action where
  isInitialized : Bool
  signature : Option String
deriving DecidableEq, Repr

/-- `new Action(program, user)`: setup not yet complete, no signature. -/
def newAction : Action :=
  { isInitialized := false, signature := none }

/-- `Action.initialize()`: await `onInitialize()` and nothing else. -/
def Action.initialize (a : Action) : Action × List ActionEvent :=
  (a, [.onInitialize])

/-- `Action.perform()`: when setup is not complete, await
`onInitialize()` and set the flag; then begin a transaction and store
`onPerform`'s signature. -/
def Action.perform (a : Action) (sig : String) : Action × List ActionEvent :=
  if a.isInitialized then
    ({ a with signature := some sig }, [.onPerform])
  else
    ({ isInitialized := true, signature := some sig },
      [.onInitialize, .onPerform])

/-! ### Helper lemmas -/

theorem lookupAssoc_setAssoc_self {α : Type} (l : List (String × α))
    (k : String) (v : α) : lookupAssoc (setAssoc l k v) k = some v := by
  induction l with
  | nil => simp [setAssoc, lookupAssoc]
  | cons p rest ih =>
    by_cases h : p.1 = k
    · simp [setAssoc, h, lookupAssoc]
    · simp [setAssoc, h, lookupAssoc, ih]

theorem lookupAssoc_append {α : Type} (l₁ l₂ : List (String × α))
    (k : String) :
    lookupAssoc (l₁ ++ l₂) k =
      match lookupAssoc l₁ k with
      | some v => some v
      | none => lookupAssoc l₂ k := by
  induction l₁ with
  | nil => simp [lookupAssoc]
  | cons p rest ih =>
    by_cases h : p.1 = k
    · simp [lookupAssoc, h]
    · simp [lookupAssoc, h, ih]

theorem setAssoc_of_lookup_none {α : Type} (l : List (String × α))
    (k : String) (v : α) (h : lookupAssoc l k = none) :
    setAssoc l k v = l ++ [(k, v)] := by
  induction l with
  | nil => simp [setAssoc]
  | cons p rest ih =>
    by_cases hk : p.1 = k
    · simp [lookupAssoc, hk] at h
    · simp [lookupAssoc, hk] at h
      simp [setAssoc, hk, ih h]

/-! ### C1 -/

/-- C1 counterexample: the claim says a `String`-typed field declaration
with no explicit `space` raises an error; at the concrete declaration
`field('String')` of property `word` the decorator raises nothing and
records the inferred size 32 (= 8 + 4 × 6). -/
theorem c1_string_field_raises_no_error :
    (fieldDecl (.prim "String") none "word" emptySchemaState).2 = none ∧
    (fieldDecl (.prim "String") none "word" emptySchemaState).1.sizes
      = [("word", 32)] := by
  constructor <;> decide

/-- C1 (amended): a field declaration whose type is a plain string name
of non-inferrable size (such as `String`) and whose options carry no
explicit `space` raises no error; the field's recorded size is the
placeholder guess `8 + 4 ×` the character length of the declared type
string, and the class total space grows by that amount. (Stated for any
starting metadata whose sizes map is empty only when its field list
is.) -/
theorem c1_string_field_size_inferred (t name : String) (st : SchemaState)
    (ht : getSizeOf t = none) (hst : st.sizes = [] → st.fields = []) :
    (fieldDecl (.prim t) none name st).2 = none ∧
    lookupAssoc (fieldDecl (.prim t) none name st).1.sizes name
      = some (8 + 4 * (t.length : Int)) ∧
    (fieldDecl (.prim t) none name st).1.space
      = st.space + (8 + 4 * (t.length : Int)) := by
  have hnneg : ¬ ((8 + 4 * (t.length : Int)) < 0) := by omega
  have hfs : fieldSpace (.prim t) none name = .ok (8 + 4 * (t.length : Int)) := by
    simp [fieldSpace, inferFieldSize, ht, hnneg]
    rfl
  by_cases hf : st.fields = []
  · simp [fieldDecl, hfs, hf, lookupAssoc_setAssoc_self]
  · have hsz : ¬ st.sizes = [] := fun hempty => hf (hst hempty)
    simp [fieldDecl, hfs, hf, hsz, lookupAssoc_setAssoc_self]

/-- C1 witness: the amended statement at the concrete declaration
`field('String')` on a fresh class. -/
theorem c1_string_field_size_inferred_witness :
    (fieldDecl (.prim "String") none "w" emptySchemaState).2 = none ∧
    lookupAssoc (fieldDecl (.prim "String") none "w" emptySchemaState).1.sizes
      "w" = some (8 + 4 * (("String" : String).length : Int)) ∧
    (fieldDecl (.prim "String") none "w" emptySchemaState).1.space
      = emptySchemaState.space + (8 + 4 * (("String" : String).length : Int)) :=
  c1_string_field_size_inferred "String" "w" emptySchemaState (by decide)
    (fun _ => rfl)

/-! ### C9 -/

/-- C9 counterexample: the claim says no field is ever registered with
size 0 (and that an explicit 0 on a non-inferrable type raises the
could-not-infer error); the concrete declaration `field(['u8', 0],
{space: 0})` raises nothing and registers the field with size 0. -/
theorem c9_zero_size_field_registered :
    (fieldDecl (.arr "u8" 0) (some 0) "f" emptySchemaState).2 = none ∧
    (fieldDecl (.arr "u8" 0) (some 0) "f" emptySchemaState).1.sizes
      = [("f", 0)] := by
  constructor <;> decide

/-- C9 (amended): an explicit `space` of exactly 0 is falsy, so the
declaration behaves exactly as if no `space` were supplied (the
recorded size is the type's inferred size); however the could-not-infer
error is not raised in its place for array types (an unknown element
size is coerced to 0), so a field can end up registered with size 0, as
`['u8', 0]` shows. -/
theorem c9_zero_space_treated_as_unsupplied :
    (∀ (type : FieldType) (name : String) (st : SchemaState),
      fieldDecl type (some 0) name st = fieldDecl type none name st) ∧
    (fieldDecl (.arr "u8" 0) none "f" emptySchemaState).2 = none ∧
    (fieldDecl (.arr "u8" 0) none "f" emptySchemaState).1.sizes
      = [("f", 0)] := by
  refine ⟨fun type name st => rfl, by decide, by decide⟩

/-! ### C4 -/

/-- C4 counterexample: the claim says that with a data payload bound and
no opcode ever set, `build()` produces exactly the payload bytes; on a
fresh builder with payload bytes `[5]` the produced data is `[0, 5]`,
not `[5]`, because `opCode` is initialized to the number 0. -/
theorem c4_fresh_builder_prepends_zero :
    buildData (newCustomBuilder.data [5]) = [0, 5] ∧
    buildData (newCustomBuilder.data [5]) ≠ [5] := by
  constructor
  · rfl
  · intro h
    simp [buildData, newCustomBuilder, CustomInstructionBuilder.data] at h

/-- C4 (amended): `opCode` is initialized to 0 and `opcode()` only stores
numbers in [0, 255], so `build()` always prepends the opcode byte: on a
builder whose opcode was never set the data is the byte 0 followed by
the payload bytes ([0] alone with no payload), and after a successful
`opcode(n)` the data is the byte `n` followed by the payload bytes
([n] alone with no payload). -/
theorem c4_build_always_prepends_opcode :
    (∀ bs, buildData (newCustomBuilder.data bs) = 0 :: bs) ∧
    buildData newCustomBuilder = [0] ∧
    (∀ (b : CustomInstructionBuilder) (n : Int) b',
      b.opcode n = .ok b' →
      (∀ bs, buildData (b'.data bs) = n.toNat :: bs) ∧
      buildData { b' with dataObject := none } = [n.toNat]) := by
  refine ⟨fun bs => rfl, rfl, fun b n b' h => ?_⟩
  rw [CustomInstructionBuilder.opcode] at h
  split at h
  · exact absurd h (by simp)
  · rename_i hrange
    push_neg at hrange
    have hmod : n % 256 = n := Int.emod_eq_of_lt hrange.1 (by omega)
    cases h
    constructor
    · intro bs
      simp [buildData, CustomInstructionBuilder.data, hmod]
    · simp [buildData, hmod]

/-- C4 witness: the amended statement exercised at `opcode(7)` with
payload bytes `[5]`. -/
theorem c4_build_always_prepends_opcode_witness :
    buildData (newCustomBuilder.data [9]) = 0 :: [9] ∧
    buildData
      (CustomInstructionBuilder.data
        { dataObject := none, opCode? := some 7 } [5]) = (7 : Int).toNat :: [5] := by
  refine ⟨c4_build_always_prepends_opcode.1 [9], ?_⟩
  exact (c4_build_always_prepends_opcode.2.2 newCustomBuilder 7
    { dataObject := none, opCode? := some 7 } (by rfl)).1 [5]

/-! ### C7 -/

/-- C7: a tag-carrying InstructionData instance serializes to the single
tag byte followed immediately by the Borsh-encoded struct body, and
when the class declares no schema fields at all (or has no schema
metadata) the output is exactly the one tag byte. -/
theorem c7_tag_byte_then_body (tag : Nat) (htag : tag < 256)
    (fields : List (String × FieldType)) (vals : List BValue) :
    instructionDataToBuffer tag (some []) vals = some [tag] ∧
    instructionDataToBuffer tag none vals = some [tag] ∧
    (∀ body, serializeStruct (fields.map (·.2)) vals = some body →
      instructionDataToBuffer tag (some fields) vals = some (tag :: body)) := by
  have hmod : tag % 256 = tag := Nat.mod_eq_of_lt htag
  refine ⟨by simp [instructionDataToBuffer, hmod], by simp [instructionDataToBuffer, hmod], ?_⟩
  intro body hbody
  by_cases hlen : fields.length = 0
  · rw [List.length_eq_zero] at hlen
    subst hlen
    cases vals with
    | nil =>
      simp [serializeStruct] at hbody
      simp [instructionDataToBuffer, hmod, ← hbody]
    | cons v vs => simp [serializeStruct] at hbody
  · simp [instructionDataToBuffer, hlen, hbody, hmod]

/-- C7 witness: tag 7 over a one-field schema with value 9. -/
theorem c7_tag_byte_then_body_witness :
    instructionDataToBuffer 7 (some [("x", .prim "u8")]) [.num 9]
      = some (7 :: [9]) :=
  (c7_tag_byte_then_body 7 (by decide) [("x", .prim "u8")] [.num 9]).2.2
    [9] (by rfl)

/-! ### C10 -/

/-- C10: `Action.initialize()` awaits `onInitialize()` without touching
the setup-complete flag, so after a direct `initialize()` the first
`perform()` awaits `onInitialize()` a second time; only `perform()`
sets the flag (making later `perform()` calls skip setup). -/
theorem c10_initialize_does_not_mark_initialized :
    newAction.isInitialized = false ∧
    (∀ a : Action, Action.initialize a = (a, [.onInitialize])) ∧
    (∀ (a : Action) (sig : String), a.isInitialized = false →
      (a.perform sig).2 = [.onInitialize, .onPerform] ∧
      (a.perform sig).1.isInitialized = true) ∧
    (∀ (a : Action) (sig : String), a.isInitialized = true →
      (a.perform sig).2 = [.onPerform]) ∧
    ((( Action.initialize newAction).1).perform "s").2 = [.onInitialize, .onPerform] := by
  refine ⟨rfl, fun a => rfl, ?_, ?_, rfl⟩
  · intro a sig h
    simp [Action.perform, h]
  · intro a sig h
    simp [Action.perform, h]

/-- C10 witness: a fresh action, initialized directly, still runs
`onInitialize` on its first `perform`. -/
theorem c10_initialize_does_not_mark_initialized_witness :
    (newAction.perform "s").2 = [.onInitialize, .onPerform] ∧
    (newAction.perform "s").1.isInitialized = true :=
  c10_initialize_does_not_mark_initialized.2.2.1 newAction "s" rfl

/-! ### C5 -/

/-- C5: `validate()` reports the first missing precondition in the order
payer, then signers, then instructions (and nothing when all three are
present), and `execute(true)` on an invalid builder throws exactly that
reason — independently of what submission would return — leaving the
builder (in particular a `Created` state) untouched. -/
theorem c5_validate_order_and_execute_guard :
    (∀ tb : TransactionBuilder,
      (tb.payer = .null →
        tb.validate = some "a payer must be specified for transaction") ∧
      (tb.payer ≠ .null → tb.signers = [] →
        tb.validate = some "transaction must be signed by at least one party") ∧
      (tb.payer ≠ .null → tb.signers ≠ [] → tb.instructionBuilders = [] →
        tb.validate = some "cannot execute transaction with no instructions") ∧
      (tb.payer ≠ .null → tb.signers ≠ [] → tb.instructionBuilders ≠ [] →
        tb.validate = none)) ∧
    (∀ (tb : TransactionBuilder) (msg : String) (submit : Except String String),
      tb.validate = some msg →
      tb.execute true submit = (.error msg, tb)) := by
  constructor
  · intro tb
    refine ⟨fun hp => by simp [TransactionBuilder.validate, hp],
      fun hp hs => by simp [TransactionBuilder.validate, hp, hs],
      fun hp hs hi => by simp [TransactionBuilder.validate, hp, hs, hi],
      fun hp hs hi => by simp [TransactionBuilder.validate, hp, hs, hi]⟩
  · intro tb msg submit h
    simp [TransactionBuilder.execute, h]

/-- C5 witness: a fresh builder is invalid for want of a payer, and
`execute(true)` throws that reason, leaving the `Created` state. -/
theorem c5_validate_order_and_execute_guard_witness :
    newTransactionBuilder.validate
      = some "a payer must be specified for transaction" ∧
    newTransactionBuilder.execute true (.ok "sig")
      = (.error "a payer must be specified for transaction",
         newTransactionBuilder) ∧
    newTransactionBuilder.state = .Created := by
  refine ⟨(c5_validate_order_and_execute_guard.1 newTransactionBuilder).1 rfl,
    c5_validate_order_and_execute_guard.2 newTransactionBuilder
      "a payer must be specified for transaction" (.ok "sig") (by decide),
    rfl⟩

/-! ### C6 -/

/-- C6: a fresh builder is in state `Created`; a successful `execute()`
ends in `Executed` and returns the submitted transaction's signature; a
submission failure inside `execute()` ends in `Failed` and re-raises
that error; every other outcome (validation failure, instruction build
error) and every other operation (`add`, `sign`) leaves the builder's
state unchanged. -/
theorem c6_transaction_state_machine :
    newTransactionBuilder.state = .Created ∧
    (∀ (tb : TransactionBuilder) bs, (tb.add bs).state = tb.state) ∧
    (∀ (tb : TransactionBuilder) ks, (tb.sign ks).state = tb.state) ∧
    (∀ (tb : TransactionBuilder) (v : Bool) submit sig tb',
      tb.execute v submit = (.ok sig, tb') →
      tb'.state = .Executed ∧ submit = .ok sig) ∧
    (∀ (tb : TransactionBuilder) (v : Bool) submit e tb',
      tb.execute v submit = (.error e, tb') →
      tb' = tb ∨ (tb'.state = .Failed ∧ submit = .error e)) := by
  refine ⟨rfl, fun tb bs => rfl, fun tb ks => rfl, ?_, ?_⟩
  · intro tb v submit sig tb' h
    rw [TransactionBuilder.execute.eq_def] at h
    split at h
    · exact absurd h (by simp)
    · cases hb : buildAll tb.instructionBuilders with
      | error e => rw [hb] at h; exact absurd h (by simp)
      | ok is =>
        rw [hb] at h
        cases submit with
        | ok s =>
          simp at h
          exact ⟨by rw [← h.2], by rw [h.1]⟩
        | error e => exact absurd h (by simp)
  · intro tb v submit e tb' h
    rw [TransactionBuilder.execute.eq_def] at h
    split at h
    · left
      simp at h
      exact h.2.symm
    · cases hb : buildAll tb.instructionBuilders with
      | error e' =>
        rw [hb] at h
        left
        simp at h
        exact h.2.symm
      | ok is =>
        rw [hb] at h
        cases submit with
        | ok s => exact absurd h (by simp)
        | error e' =>
          right
          simp at h
          exact ⟨by rw [← h.2], by rw [h.1]⟩

/-- C6 witness: a signed builder with one buildable instruction executes
successfully into `Executed`, and the same builder ends `Failed` when
submission reports an error. -/
theorem c6_transaction_state_machine_witness :
    (((newTransactionBuilder.sign [1]).add [Except.ok 42]).execute true
        (.ok "sig")).2.state = .Executed ∧
    (((newTransactionBuilder.sign [1]).add [Except.ok 42]).execute true
        (.error "boom")).2.state = .Failed := by
  constructor
  · exact (c6_transaction_state_machine.2.2.2.1
      ((newTransactionBuilder.sign [1]).add [Except.ok 42]) true (.ok "sig")
      "sig"
      (((newTransactionBuilder.sign [1]).add [Except.ok 42]).execute true
        (.ok "sig")).2
      (by decide)).1
  · rcases c6_transaction_state_machine.2.2.2.2
      ((newTransactionBuilder.sign [1]).add [Except.ok 42]) true
      (.error "boom") "boom"
      (((newTransactionBuilder.sign [1]).add [Except.ok 42]).execute true
        (.error "boom")).2
      (by decide) with h | h
    · exact absurd h (by decide)
    · exact h.1

/-! ### C8 -/

/-- The byte representation of a memcmp target, where it has one: a
buffer's bytes, a number's single byte, an array's bytes, a public
key's key bytes; a plain string has none (it is compared by its text). -/
def targetBytes : MemcmpTarget → Option (List Nat)
  | .buffer bs => some bs
  | .number n => some [n % 256]
  | .arr bs => some bs
  | .pubkey bs => some bs
  | .str _ => none

/-- C8 counterexample: the claim says the comparison text of a
`match({field: value})` filter is always the base58 encoding of the
value's byte representation; matching the string value `"a"` (bytes
`[97]`) stages the raw text `"a"`, while base58 of `[97]` is `"2g"`. -/
theorem c8_string_target_not_base58 :
    ((newQuery (some 1)).matchFields [("x", 0)] [("x", .str "a")]).memcmpFilters
      = [(some 0, "a")] ∧
    b58encode [97] = "2g" ∧
    ("a" : String) ≠ b58encode [97] := by
  refine ⟨by decide, by decide, by decide⟩

/-- C8 (amended): a fresh query's size filter equals the target type's
recorded total schema space; `match({field: value})` stages exactly one
memcmp filter at the field's recorded offset; its comparison text is
the base58 encoding of the value's byte representation for buffer,
number, byte-array and public-key values, and the value's own text for
string values. -/
theorem c8_match_filter_shape (space : Int) (offsets : List (String × Int))
    (name : String) (k : Int) (v : MemcmpTarget) (q : Query)
    (hk : lookupAssoc offsets name = some k) :
    (newQuery (some space)).dataSizeFilter = some space ∧
    (q.matchFields offsets [(name, v)]).memcmpFilters
      = q.memcmpFilters ++ [(some k.toNat, memcmpTargetText v)] ∧
    (∀ bs, targetBytes v = some bs → memcmpTargetText v = b58encode bs) ∧
    (∀ s, v = .str s → memcmpTargetText v = s) := by
  refine ⟨rfl, ?_, ?_, ?_⟩
  · simp [Query.matchFields, Query.memcmp, hk]
  · intro bs hbs
    cases v <;> simp [targetBytes] at hbs <;> simp [memcmpTargetText, ← hbs]
  · intro s hs
    subst hs
    rfl

/-- C8 witness: the amended statement at a public-key value on a field
recorded at offset 4 of a 9-byte schema. -/
theorem c8_match_filter_shape_witness :
    (newQuery (some 9)).dataSizeFilter = some 9 ∧
    ((newQuery (some 9)).matchFields [("x", 4)]
        [("x", .pubkey [1, 2])]).memcmpFilters
      = (newQuery (some 9)).memcmpFilters
          ++ [(some (4 : Int).toNat, memcmpTargetText (.pubkey [1, 2]))] ∧
    memcmpTargetText (.pubkey [1, 2]) = b58encode [1, 2] := by
  have h := c8_match_filter_shape 9 [("x", 4)] "x" 4 (.pubkey [1, 2])
    (newQuery (some 9)) (by decide)
  exact ⟨h.1, h.2.1, h.2.2.1 [1, 2] rfl⟩

/-! ### C3: Borsh round-trip -/

theorem length_natToLE (w n : Nat) : (natToLE w n).length = w := by
  induction w generalizing n with
  | zero => rfl
  | succ w ih => simp [natToLE, ih]

theorem fromLE_natToLE (w n : Nat) (h : n < 256 ^ w) :
    fromLE (natToLE w n) = n := by
  induction w generalizing n with
  | zero =>
    simp [natToLE, fromLE]
    omega
  | succ w ih =>
    have hdiv : n / 256 < 256 ^ w := by
      rw [Nat.div_lt_iff_lt_mul (by norm_num)]
      calc n < 256 ^ (w + 1) := h
        _ = 256 ^ w * 256 := by ring
    simp [natToLE, fromLE, ih _ hdiv]
    omega

theorem deserializeField_serializeField (t : FieldType) (v : BValue)
    (b rest : List Nat) (h : serializeField t v = some b) :
    deserializeField t (b ++ rest) = some (v, rest) := by
  cases t with
  | prim name =>
    cases hw : primWidth name with
    | some w =>
      cases v with
      | num n =>
        simp [serializeField, hw] at h
        obtain ⟨hlt, hb⟩ := h
        subst hb
        have hl := length_natToLE w n
        simp only [deserializeField, hw]
        rw [if_pos (by simp [hl])]
        rw [List.take_left' hl, List.drop_left' hl, fromLE_natToLE w n hlt]
      | str bs => simp [serializeField, hw] at h
      | bytes bs => simp [serializeField, hw] at h
    | none =>
      by_cases hname : capitalizeFirstLetter name = "String"
      · cases v with
        | str bs =>
          simp [serializeField, hw, hname] at h
          obtain ⟨⟨hlen, hall⟩, hb⟩ := h
          subst hb
          have hl := length_natToLE 4 bs.length
          simp only [deserializeField, hw]
          rw [if_pos hname]
          rw [List.append_assoc]
          have h4 : 4 ≤ (natToLE 4 bs.length ++ (bs ++ rest)).length := by
            rw [List.length_append, hl]
            omega
          rw [if_pos h4]
          rw [List.take_left' hl, List.drop_left' hl,
            fromLE_natToLE 4 bs.length hlen]
          rw [List.take_left' rfl, List.drop_left' rfl]
          have hle : bs.length ≤ (bs ++ rest).length := by
            rw [List.length_append]
            omega
          simp [hle]
        | num n => simp [serializeField, hw, hname] at h
        | bytes bs => simp [serializeField, hw, hname] at h
      · simp [serializeField, hw, hname] at h
  | arr name k =>
    by_cases hname : primWidth name = some 1
    · cases v with
      | bytes bs =>
        simp [serializeField, hname] at h
        obtain ⟨⟨hlen, hall⟩, hb⟩ := h
        subst hb
        simp only [deserializeField]
        rw [if_pos hname]
        rw [List.take_left' hlen, List.drop_left' hlen]
        have hle : k ≤ bs.length + rest.length := by omega
        simp [hle]
      | num n => simp [serializeField, hname] at h
      | str bs => simp [serializeField, hname] at h
    · simp [serializeField, hname] at h

theorem deserializeStruct_serializeStruct (ts : List FieldType)
    (vs : List BValue) (bs rest : List Nat)
    (h : serializeStruct ts vs = some bs) :
    deserializeStruct ts (bs ++ rest) = some (vs, rest) := by
  induction ts generalizing vs bs with
  | nil =>
    cases vs with
    | nil =>
      simp [serializeStruct] at h
      subst h
      simp [deserializeStruct]
    | cons v vs => exact absurd h (by simp [serializeStruct])
  | cons t ts ih =>
    cases vs with
    | nil => exact absurd h (by simp [serializeStruct])
    | cons v vs =>
      simp only [serializeStruct, Option.pure_def, Option.bind_eq_bind,
        Option.bind_eq_some, Option.some.injEq] at h
      obtain ⟨b₁, hb₁, b₂, hb₂, hbs⟩ := h
      subst hbs
      simp only [deserializeStruct, Option.bind_eq_bind, List.append_assoc]
      rw [deserializeField_serializeField t v b₁ (b₂ ++ rest) hb₁]
      simp only [Option.some_bind]
      rw [ih vs b₂ hb₂]
      rfl

/-- C3: for an instance of a schema-bearing class with every declared
field set, whose serialization succeeds, deserializing the bytes of
`toBuffer()` recovers every declared field's value exactly; and for a
tag-carrying InstructionData subclass, the same holds after stripping
the leading routing-tag byte from its `toBuffer()` output. -/
theorem c3_to_buffer_load_roundtrip (fields : List (String × FieldType))
    (vals : List BValue) (bs : List Nat)
    (h : programObjectToBuffer fields vals = some bs) :
    programObjectLoad fields bs = some vals ∧
    (∀ (tag : Nat) (bs' : List Nat),
      instructionDataToBuffer tag (some fields) vals = some bs' →
      programObjectLoad fields (bs'.drop 1) = some vals) := by
  have hser : serializeStruct (fields.map (·.2)) vals = some bs := h
  have hload : programObjectLoad fields bs = some vals := by
    have hds := deserializeStruct_serializeStruct (fields.map (·.2)) vals bs [] hser
    rw [List.append_nil] at hds
    simp [programObjectLoad, hds]
  refine ⟨hload, ?_⟩
  intro tag bs' h'
  cases fields with
  | nil =>
    cases vals with
    | nil =>
      have hbs : bs = [] := by
        simp [serializeStruct] at hser
        exact hser
      subst hbs
      simp [instructionDataToBuffer] at h'
      subst h'
      simpa using hload
    | cons v vs => exact absurd hser (by simp [serializeStruct])
  | cons f fs =>
    rw [List.map_cons] at hser
    simp [instructionDataToBuffer, hser] at h'
    subst h'
    simpa using hload

/-- C3 witness: a two-field schema spelled as the repository declares it
(`field('u8')` then `field('String')`) with the values 3 and "hi"
(bytes [104, 105]) round-trips, both bare and behind the tag byte 7. -/
theorem c3_to_buffer_load_roundtrip_witness :
    programObjectLoad [("luckyNumber", .prim "u8"), ("word", .prim "String")]
      [3, 2, 0, 0, 0, 104, 105] = some [.num 3, .str [104, 105]] ∧
    programObjectLoad [("luckyNumber", .prim "u8"), ("word", .prim "String")]
      ([7, 3, 2, 0, 0, 0, 104, 105].drop 1) = some [.num 3, .str [104, 105]] := by
  have h := c3_to_buffer_load_roundtrip
    [("luckyNumber", .prim "u8"), ("word", .prim "String")]
    [.num 3, .str [104, 105]] [3, 2, 0, 0, 0, 104, 105] (by decide)
  exact ⟨h.1, h.2 7 [7, 3, 2, 0, 0, 0, 104, 105] (by decide)⟩

/-! ### C2: field offsets and accumulated space -/

/-- The effective (declared-or-inferred) size of one field declaration:
the successful result of the decorator's size computation. -/
def effSize (d : FieldDecl) : Int :=
  match fieldSpace d.type d.space? d.name with
  | .ok s => s
  | .error _ => 0

/-- Each name paired with the running sum of the sizes preceding it. -/
def prefixOffsets : List (String × Int) → Int → List (String × Int)
  | [], _ => []
  | (n, s) :: rest, acc => (n, acc) :: prefixOffsets rest (acc + s)

theorem prefixOffsets_map_fst (l : List (String × Int)) (acc : Int) :
    (prefixOffsets l acc).map (·.1) = l.map (·.1) := by
  induction l generalizing acc with
  | nil => rfl
  | cons p rest ih =>
    cases p
    simp [prefixOffsets, ih]

theorem prefixOffsets_append (l : List (String × Int)) (p : String × Int)
    (acc : Int) :
    prefixOffsets (l ++ [p]) acc
      = prefixOffsets l acc ++ [(p.1, acc + (l.map (·.2)).sum)] := by
  induction l generalizing acc with
  | nil => simp [prefixOffsets]
  | cons q rest ih =>
    cases q
    simp [prefixOffsets, ih, add_assoc]

theorem lookupAssoc_eq_none {α : Type} (l : List (String × α)) (k : String) :
    lookupAssoc l k = none ↔ k ∉ l.map (·.1) := by
  induction l with
  | nil => simp [lookupAssoc]
  | cons p rest ih =>
    by_cases h : p.1 = k
    · simp [lookupAssoc, h]
    · simp only [lookupAssoc, if_neg h, ih, List.map_cons, List.mem_cons,
        not_or]
      constructor
      · intro hk
        exact ⟨fun he => h he.symm, hk⟩
      · intro hk
        exact hk.2

theorem lookupAssoc_prefixOffsets (l : List (String × Int)) (acc : Int)
    (hnd : (l.map (·.1)).Nodup) (n : Nat) (hn : n < l.length) :
    lookupAssoc (prefixOffsets l acc) (l.get ⟨n, hn⟩).1
      = some (acc + ((l.take n).map (·.2)).sum) := by
  induction l generalizing acc n with
  | nil => exact absurd hn (by simp)
  | cons p rest ih =>
    rw [List.map_cons, List.nodup_cons] at hnd
    cases n with
    | zero => simp [prefixOffsets, lookupAssoc]
    | succ m =>
      have hm : m < rest.length := by simpa using hn
      have hmem : (rest.get ⟨m, hm⟩).1 ∈ rest.map (·.1) :=
        List.mem_map_of_mem _ (rest.get_mem m hm)
      have hne : p.1 ≠ (rest.get ⟨m, hm⟩).1 := fun heq =>
        hnd.1 (heq ▸ hmem)
      simp only [prefixOffsets, lookupAssoc, List.get_cons_succ, if_neg hne]
      rw [ih (acc + p.2) hnd.2 m hm]
      simp [add_assoc]

/-- The coherence invariant the `field` decorator maintains on a class's
metadata: the schema field names and the sizes-map keys agree, the
offsets map records for each field the sum of the sizes before it, and
the accumulated space is the sum of all recorded sizes. -/
def SchemaInv (st : SchemaState) : Prop :=
  st.fields.map (·.1) = st.sizes.map (·.1) ∧
  st.offsets = prefixOffsets st.sizes 0 ∧
  st.space = (st.sizes.map (·.2)).sum

theorem schemaInv_empty : SchemaInv emptySchemaState := ⟨rfl, rfl, rfl⟩

/-- One successful `field` application on coherent metadata with a fresh
property name appends the field, its offset (the sum of the previously
recorded sizes) and its size. -/
theorem fieldDecl_ok_step (type : FieldType) (space? : Option Int)
    (name : String) (st : SchemaState) (s : Int)
    (hinv : SchemaInv st)
    (hfresh : lookupAssoc st.sizes name = none)
    (hs : fieldSpace type space? name = .ok s) :
    fieldDecl type space? name st
      = ({ fields := st.fields ++ [(name, type)]
           offsets := st.offsets ++ [(name, (st.sizes.map (·.2)).sum)]
           sizes := st.sizes ++ [(name, s)]
           space := st.space + s }, none) := by
  obtain ⟨hnames, hoffs, hspace⟩ := hinv
  have hfreshO : lookupAssoc st.offsets name = none := by
    rw [lookupAssoc_eq_none] at hfresh ⊢
    rw [hoffs, prefixOffsets_map_fst]
    exact hfresh
  have hsizes := setAssoc_of_lookup_none st.sizes name s hfresh
  by_cases hf : st.fields = []
  · have hszE : st.sizes = [] := by
      have h1 : st.sizes.map (·.1) = [] := by rw [← hnames, hf]; rfl
      simpa using h1
    have hoffE : st.offsets = [] := by rw [hoffs, hszE]; rfl
    simp [fieldDecl, hs, hf, hszE, hoffE, setAssoc]
  · have hsz : st.sizes ≠ [] := by
      intro he
      apply hf
      have h1 : st.fields.map (·.1) = [] := by rw [hnames, he]; rfl
      simpa using h1
    have hoffs2 := setAssoc_of_lookup_none st.offsets name
      ((st.sizes.map (·.2)).sum) hfreshO
    simp [fieldDecl, hs, hf, hsz, hsizes, hoffs2]

/-- A successful run of a sequence of `field` decorators with pairwise
distinct property names, from coherent metadata whose keys are fresh
for the sequence, stays coherent and appends exactly one sizes entry
per declaration, carrying its effective size. -/
theorem applyFields_ok (decls : List FieldDecl) :
    ∀ (st : SchemaState), SchemaInv st →
    (∀ d ∈ decls, lookupAssoc st.sizes d.name = none) →
    (decls.map (·.name)).Nodup →
    ∀ (st' : SchemaState), applyFields decls st = (st', none) →
    SchemaInv st' ∧
    st'.sizes = st.sizes ++ decls.map (fun d => (d.name, effSize d)) ∧
    (∀ d ∈ decls, fieldSpace d.type d.space? d.name = .ok (effSize d)) := by
  induction decls with
  | nil =>
    intro st hinv _ _ st' h
    simp only [applyFields, Prod.mk.injEq] at h
    rw [← h.1]
    exact ⟨hinv, by simp, by simp⟩
  | cons d ds ih =>
    intro st hinv hfresh hnd st' h
    rw [List.map_cons, List.nodup_cons] at hnd
    cases hs : fieldSpace d.type d.space? d.name with
    | error e =>
      have hfd : fieldDecl d.type d.space? d.name st
          = ({ st with fields := st.fields ++ [(d.name, d.type)] }, some e) := by
        simp [fieldDecl, hs]
      rw [applyFields, hfd] at h
      exact absurd (congrArg Prod.snd h) (by simp)
    | ok s =>
      have hstep := fieldDecl_ok_step d.type d.space? d.name st s hinv
        (hfresh d (by simp)) hs
      rw [applyFields, hstep] at h
      have heff : effSize d = s := by simp [effSize, hs]
      set newSt : SchemaState :=
        { fields := st.fields ++ [(d.name, d.type)]
          offsets := st.offsets ++ [(d.name, (st.sizes.map (·.2)).sum)]
          sizes := st.sizes ++ [(d.name, s)]
          space := st.space + s } with hnew
      have hinv' : SchemaInv newSt := by
        obtain ⟨hnames, hoffs, hspace⟩ := hinv
        refine ⟨?_, ?_, ?_⟩
        · simp [hnew, hnames]
        · simp only [hnew]
          rw [prefixOffsets_append, hoffs]
          simp
        · simp [hnew, hspace]
      have hfresh' : ∀ d' ∈ ds, lookupAssoc newSt.sizes d'.name = none := by
        intro d' hd'
        have h1 : lookupAssoc st.sizes d'.name = none :=
          hfresh d' (by simp [hd'])
        have hne : d.name ≠ d'.name := fun heq =>
          hnd.1 (heq ▸ List.mem_map_of_mem _ hd')
        rw [hnew]
        simp only [lookupAssoc_append, h1]
        simp [lookupAssoc, hne]
      obtain ⟨hinv'', hsz'', hok''⟩ := ih newSt hinv' hfresh' hnd.2 st' h
      refine ⟨hinv'', ?_, ?_⟩
      · rw [hsz'']
        simp [hnew, heff]
      · intro d' hd'
        rcases List.mem_cons.mp hd' with hEq | hTail
        · subst hEq
          rw [heff]
          exact hs
        · exact hok'' d' hTail

/-- C2: after any successful sequence of `field` declarations with
distinct property names on a fresh class, the recorded byte offset of
the Nth declared field is the sum of the effective
(declared-or-inferred) sizes of all preceding declarations (the first
field's offset is 0), the accumulated total `space` is the sum of all
the declarations' effective sizes, and each recorded size is exactly
the decorator's declared-or-inferred size for that declaration. -/
theorem c2_offsets_and_space (decls : List FieldDecl) (st' : SchemaState)
    (hnd : (decls.map (·.name)).Nodup)
    (h : applyFields decls emptySchemaState = (st', none)) :
    (∀ (n : Nat) (hn : n < decls.length),
      lookupAssoc st'.offsets (decls.get ⟨n, hn⟩).name
        = some (((decls.take n).map effSize).sum)) ∧
    st'.space = (decls.map effSize).sum ∧
    (∀ d ∈ decls, fieldSpace d.type d.space? d.name = .ok (effSize d)) := by
  obtain ⟨⟨hnames, hoffs, hspace⟩, hsz, hok⟩ := applyFields_ok decls
    emptySchemaState schemaInv_empty (by simp [lookupAssoc]) hnd st' h
  obtain ⟨flds, offs, szs, sp⟩ := st'
  simp only [emptySchemaState, List.nil_append] at hnames hoffs hspace hsz ⊢
  subst hsz
  refine ⟨?_, ?_, hok⟩
  · intro n hn
    have hn' : n < (decls.map (fun d => (d.name, effSize d))).length := by
      simpa using hn
    have hnd' : ((decls.map (fun d => (d.name, effSize d))).map (·.1)).Nodup := by
      rw [List.map_map]
      exact hnd
    have hpre := lookupAssoc_prefixOffsets
      (decls.map (fun d => (d.name, effSize d))) 0 hnd' n hn'
    have hget : ((decls.map (fun d => (d.name, effSize d))).get ⟨n, hn'⟩).1
        = (decls.get ⟨n, hn⟩).name := by
      simp
    rw [hget] at hpre
    rw [hoffs, hpre]
    have htake : ((decls.map (fun d => (d.name, effSize d))).take n).map (·.2)
        = (decls.take n).map effSize := by
      rw [← List.map_take, List.map_map]
      rfl
    rw [htake, zero_add]
  · rw [hspace, List.map_map]
    rfl

/-- C2 witness: three fields (`u8`, then `u64`, then a `String` with an
explicit 512-byte space): the third field's recorded offset is 9 and
the accumulated space is 521. -/
theorem c2_offsets_and_space_witness :
    lookupAssoc (applyFields
      [⟨"a", .prim "u8", none⟩, ⟨"b", .prim "u64", none⟩,
       ⟨"c", .prim "String", some 512⟩] emptySchemaState).1.offsets "c"
      = some (((([⟨"a", .prim "u8", none⟩, ⟨"b", .prim "u64", none⟩,
          ⟨"c", .prim "String", some 512⟩] : List FieldDecl).take 2).map
            effSize).sum) ∧
    (applyFields
      [⟨"a", .prim "u8", none⟩, ⟨"b", .prim "u64", none⟩,
       ⟨"c", .prim "String", some 512⟩] emptySchemaState).1.space
      = (([⟨"a", .prim "u8", none⟩, ⟨"b", .prim "u64", none⟩,
          ⟨"c", .prim "String", some 512⟩] : List FieldDecl).map effSize).sum := by
  have h := c2_offsets_and_space
    [⟨"a", .prim "u8", none⟩, ⟨"b", .prim "u64", none⟩,
     ⟨"c", .prim "String", some 512⟩]
    (applyFields
      [⟨"a", .prim "u8", none⟩, ⟨"b", .prim "u64", none⟩,
       ⟨"c", .prim "String", some 512⟩] emptySchemaState).1
    (by decide) (by decide)
  exact ⟨h.1 2 (by decide), h.2.1⟩

end SolanaProgram
